import Mathlib

/-!
Shallow embedding of the `wal` package (write-ahead log): the log writer
(`wal.go`: rotation, pruning, tag cache), the log reader (iteration, seeking,
tag lookup) and the recovery entry point (`recover.go`).  Segment files are
modelled at the record level; the segment writer and reader themselves are not
under the provided sources, so their behaviour is modelled from the spec where
noted.  File systems are pure values; time is an integer parameter.
-/

namespace Wal

/-- Byte strings are lists of naturals. -/
abbrev Bytes := List Nat

/-- Record types: `dataType` and `tagType` in the source. -/
inductive RecType
  | data
  | tag
deriving DecidableEq

/-- One framed record: type byte plus payload, as in the record codec.
The 4-byte length / 2-byte checksum header exists only as byte overhead here
(7 bytes per record, the `averageOverhead` constant of the source). -/
structure Record where
  rtype : RecType
  payload : Bytes
deriving DecidableEq

/-- One unit in a segment file: either a framed record or the closing
sentinel marker a segment writer appends on clean close. -/
inductive Item
  | record (r : Record)
  | sentinel
deriving DecidableEq

/-- Modelled from the spec: the closing sentinel is a fixed marker (the
`closingMagic` of the segment code, which is not under the provided sources);
its byte length is opaque, fixed here at 8. -/
def closingMagicLen : Nat := 8

/-- Byte size of one item: 7 bytes of framing overhead plus the payload for a
record, the magic length for a sentinel. -/
def itemSize : Item → Nat
  | .record r => 7 + r.payload.length
  | .sentinel => closingMagicLen

/-- Total byte size of a run of items. -/
def itemsSize (l : List Item) : Nat := (l.map itemSize).sum

/-- One segment file: its items plus a modification time (an integer
timestamp, used by TTL pruning). -/
structure SegFile where
  items : List Item
  modTime : Int
deriving DecidableEq

/-- A position in the log, as in the source: segment index plus byte
offset.  `{-1, -1}` is the sentinel for no position. -/
structure Position where
  segment : Int
  offset : Int
deriving DecidableEq

/-- The sidecar `tags` file: absent (never created), present but empty
(just created or truncated, nothing encoded yet), or holding one encoded
tag-cache document. -/
inductive TagsFile
  | absent
  | empty
  | doc (m : List (Bytes × Position))
deriving DecidableEq

/-- The log directory as a pure value: segment files keyed by their integer
index, plus the `tags` sidecar file. -/
structure FS where
  segments : List (Int × SegFile)
  tags : TagsFile
deriving DecidableEq

/-- Lookup of a segment file by index (the association list stands for the
directory). -/
def fsLookup : List (Int × SegFile) → Int → Option SegFile
  | [], _ => none
  | p :: t, i => if p.1 = i then some p.2 else fsLookup t i

/-- Replace the segment file stored at index `i`. -/
def fsUpdate (fs : FS) (i : Int) (f : SegFile) : FS :=
  { fs with segments := fs.segments.map (fun p => if p.1 = i then (i, f) else p) }

/-- One step of the fold in `rangeSegments`: update the running
`(first, last)` pair with one decimal file name, `-1` meaning unset. -/
def rangeStep (acc : Int × Int) (i : Int) : Int × Int :=
  let first := if acc.1 = -1 ∨ i < acc.1 then i else acc.1
  let last := if acc.2 = -1 ∨ i > acc.2 then i else acc.2
  (first, last)

/-- `rangeSegments`: scan the directory for integer-named files and return
the smallest and largest index, `(-1, -1)` when none exist. -/
def rangeSegments (fs : FS) : Int × Int :=
  (fs.segments.map (fun p => p.1)).foldl rangeStep (-1, -1)

/-- `WriteOptions` of the source. -/
structure WriteOptions where
  SegmentSize : Int
  MaxSegments : Int
  SegmentTTL : Int
  SyncRate : Int
deriving DecidableEq

/-- `WALWriter` state: options, oldest retained index `first`, current index
`index`, and the in-memory tag cache.  The current segment writer is the file
at `index` in the directory value; its size is read from that file, which the
source tracks incrementally to the same value. -/
structure WALWriter where
  opts : WriteOptions
  first : Int
  index : Int
  cache : List (Bytes × Position)
deriving DecidableEq

/-- Create the segment file at index `i` when absent; an existing file is
reopened for appending and left intact (`NewSegmentWriter`). -/
def ensureSegment (fs : FS) (i : Int) (now : Int) : FS :=
  match fsLookup fs.segments i with
  | some _ => fs
  | none => { fs with segments := (i, ⟨[], now⟩) :: fs.segments }

/-- `NewWithOptions`: recover `first`/`index` from the directory scan
(defaulting both to 0), create-or-truncate the `tags` file, start with an
empty in-memory cache, and open the segment at `index`. -/
def NewWithOptions (fs : FS) (opts : WriteOptions) (now : Int) : WALWriter × FS :=
  let r := rangeSegments fs
  let last := if r.2 = -1 then 0 else r.2
  let first := if r.1 = -1 then 0 else r.1
  let fs := { fs with tags := TagsFile.empty }
  let w : WALWriter := ⟨opts, first, last, []⟩
  (w, ensureSegment fs last now)

/-- Close the segment file at index `i`: the segment writer appends its
closing sentinel (`SegmentWriter.Close`). -/
def closeSegment (fs : FS) (i : Int) : FS :=
  match fsLookup fs.segments i with
  | some f => fsUpdate fs i ⟨f.items ++ [Item.sentinel], f.modTime⟩
  | none => fs

/-- `rotateSegment`: close the current segment writer, increment `index`,
open a fresh segment writer at the new index. -/
def rotateSegment (w : WALWriter) (fs : FS) (now : Int) : WALWriter × FS :=
  let fs := closeSegment fs w.index
  let w := { w with index := w.index + 1 }
  (w, ensureSegment fs w.index now)

/-- The TTL walk of `pruneSegments`: starting from the count cutoff, advance
one index at a time while below `index`; a missing file is skipped, an
expired file (modification time not after `expireBefore`) is advanced past,
and the walk stops at the first file still within its TTL.  The fuel is the
distance to `index`, so the walk is exactly the `for ; startAt < wal.index`
loop of the source. -/
def ttlAdvance (fs : FS) (expireBefore : Int) : Nat → Int → Int
  | 0, s => s
  | fuel+1, s =>
    match fsLookup fs.segments s with
    | none => ttlAdvance fs expireBefore fuel (s+1)
    | some f => if f.modTime > expireBefore then s else ttlAdvance fs expireBefore fuel (s+1)

/-- The `startAt` value computed by `pruneSegments` before deletion: the
count cutoff `max(first, index - total + 1)`, advanced by the TTL walk when
an expiration time is set (`none` stands for the zero `time.Time`). -/
def pruneStart (w : WALWriter) (fs : FS) (total : Int) (expireBefore : Option Int) : Int :=
  let startAt0 := if w.index - total + 1 < w.first then w.first else w.index - total + 1
  match expireBefore with
  | some e => ttlAdvance fs e (w.index - startAt0).toNat startAt0
  | none => startAt0

/-- Delete every segment file with index in `[lo, hi)` (`os.Remove`
tolerating missing files). -/
def removeRange (fs : FS) (lo hi : Int) : FS :=
  { fs with segments := fs.segments.filter (fun p => decide (¬ (lo ≤ p.1 ∧ p.1 < hi))) }

/-- `flushTagsFile`: truncate the `tags` file, re-encode the in-memory cache
into it and fsync, as one pure update of the sidecar file. -/
def flushTagsFile (w : WALWriter) (fs : FS) : FS :=
  { fs with tags := TagsFile.doc w.cache }

/-- `pruneSegments`: compute `startAt`, delete every segment in
`[first, startAt)`, and when that range was non-empty move `first` to
`startAt`, drop cache entries whose segment is below `startAt`, and rewrite
the `tags` file when any entry was dropped. -/
def pruneSegments (w : WALWriter) (fs : FS) (total : Int) (expireBefore : Option Int) :
    WALWriter × FS :=
  let startAt := pruneStart w fs total expireBefore
  let fs1 := removeRange fs w.first startAt
  if startAt - 1 ≥ w.first then
    let removed := w.cache.any (fun p => decide (p.2.segment < startAt))
    let w1 : WALWriter :=
      { w with first := startAt,
               cache := w.cache.filter (fun p => decide (¬ p.2.segment < startAt)) }
    if removed then (w1, flushTagsFile w1 fs1) else (w1, fs1)
  else (w, fs1)

/-- The fixed 7-byte per-record overhead (4-byte length, 1-byte type,
2-byte checksum). -/
def averageOverhead : Int := 4 + 1 + 2

/-- Byte size of the segment file at index `i`, 0 when absent; the segment
writer tracks this incrementally to the same value. -/
def segSize (fs : FS) (i : Int) : Int :=
  match fsLookup fs.segments i with
  | some f => itemsSize f.items
  | none => 0

/-- Append one item to the segment file at index `i`, updating its
modification time.  A missing file means the writer holds an unlinked handle
(its segment was pruned); such appends are invisible to the directory. -/
def appendItem (fs : FS) (i : Int) (it : Item) (now : Int) : FS :=
  match fsLookup fs.segments i with
  | some f => fsUpdate fs i ⟨f.items ++ [it], now⟩
  | none => fs

/-- The expiration passed to pruning by `Write`: `now - SegmentTTL` when the
TTL option is non-zero, the zero time otherwise. -/
def writeExpireBefore (opts : WriteOptions) (now : Int) : Option Int :=
  if opts.SegmentTTL ≠ 0 then some (now - opts.SegmentTTL) else none

/-- `WALWriter.Write`: when the projected size
`len(data) + 7 + current segment size` strictly exceeds `SegmentSize`,
rotate and then prune before appending; otherwise append directly. -/
def WALWriter.Write (w : WALWriter) (fs : FS) (data : Bytes) (now : Int) : WALWriter × FS :=
  let newSize : Int := (data.length : Int) + averageOverhead + segSize fs w.index
  if newSize > w.opts.SegmentSize then
    let r := rotateSegment w fs now
    let p := pruneSegments r.1 r.2 w.opts.MaxSegments (writeExpireBefore w.opts now)
    (p.1, appendItem p.2 p.1.index (Item.record ⟨RecType.data, data⟩) now)
  else
    (w, appendItem fs w.index (Item.record ⟨RecType.data, data⟩) now)

/-- `WALWriter.Pos`: the position at which the next write will occur. -/
def WALWriter.Pos (w : WALWriter) (fs : FS) : Position :=
  ⟨w.index, segSize fs w.index⟩

/-- Error values surfaced by the embedding: `eofErr` is `io.EOF` (both the
end-of-log condition of `SeekTag` and the decode failure on an empty `tags`
file), `noSegments` is `ErrNoSegments`, `segNotFound` an open failure on a
missing segment file, and `injected` the fault injected into a segment
append to model an I/O failure. -/
inductive WalError
  | eofErr
  | noSegments
  | segNotFound (i : Int)
  | injected
deriving DecidableEq

/-- Insert-or-overwrite one entry of the tag cache (Go map assignment). -/
def cacheInsert (c : List (Bytes × Position)) (k : Bytes) (v : Position) :
    List (Bytes × Position) :=
  c.filter (fun p => decide (¬ p.1 = k)) ++ [(k, v)]

/-- Lookup in the tag cache (Go map read). -/
def cacheLookup : List (Bytes × Position) → Bytes → Option Position
  | [], _ => none
  | p :: t, k => if p.1 = k then some p.2 else cacheLookup t k

/-- `WALWriter.WriteTag`: capture the current segment offset, append a tag
record, and only on success store `{index, offsetBefore}` into the cache and
rewrite the `tags` file.  `appendOk` injects the success or failure of the
underlying segment append. -/
def WALWriter.WriteTag (w : WALWriter) (fs : FS) (tag : Bytes) (now : Int) (appendOk : Bool) :
    Except WalError Unit × WALWriter × FS :=
  let segPos := segSize fs w.index
  if appendOk then
    let fs1 := appendItem fs w.index (Item.record ⟨RecType.tag, tag⟩) now
    let w1 := { w with cache := cacheInsert w.cache tag ⟨w.index, segPos⟩ }
    (Except.ok (), w1, flushTagsFile w1 fs1)
  else
    (Except.error WalError.injected, w, fs)

/-- `WALWriter.Close`: close the current segment writer, appending its
closing sentinel. -/
def WALWriter.Close (w : WALWriter) (fs : FS) : FS :=
  closeSegment fs w.index

/-- Segment reader state: the index of its file (reads go through to the
directory value, as the underlying handle reads the file), the cursor as a
count of items consumed, the last decoded payload, and the sticky error. -/
structure SegReader where
  segIdx : Int
  cursor : Nat
  val : Bytes
  err : Option WalError
deriving DecidableEq

/-- Items of the segment file at index `i`, empty when absent. -/
def itemsOf (fs : FS) (i : Int) : List Item :=
  match fsLookup fs.segments i with
  | some f => f.items
  | none => []

/-- Modelled from the spec: the segment reader scan underlying
`SegmentReader.next` (its code is not under the provided sources): find the
first record of the requested type, skipping records of the other type and
sentinel markers, and report how many items were passed over. -/
def scanItems (typ : RecType) : List Item → Option (Nat × Bytes)
  | [] => none
  | Item.record r :: rest =>
    if r.rtype = typ then some (0, r.payload)
    else (scanItems typ rest).map (fun p => (p.1 + 1, p.2))
  | Item.sentinel :: rest => (scanItems typ rest).map (fun p => (p.1 + 1, p.2))

/-- Modelled from the spec: `SegmentReader.next(typ)` decodes from the
cursor, skipping non-matching records; on success the cursor ends after the
consumed record and the payload is retained; on failure (no further complete
matching record) the cursor is left unmoved and `false` is returned. -/
def segNext (fs : FS) (s : SegReader) (typ : RecType) : Bool × SegReader :=
  match scanItems typ ((itemsOf fs s.segIdx).drop s.cursor) with
  | some p => (true, { s with cursor := s.cursor + p.1 + 1, val := p.2 })
  | none => (false, s)

/-- Modelled from the spec: translate a byte offset into an item cursor;
offsets produced by the log are item boundaries, a misaligned offset lands at
the next boundary (`SegmentReader.Seek` performs no validation). -/
def offsetToCursor : List Item → Int → Nat
  | [], _ => 0
  | it :: rest, off => if off ≤ 0 then 0 else 1 + offsetToCursor rest (off - itemSize it)

/-- Modelled from the spec: `SegmentReader.Seek` repositions the cursor to a
byte offset without validation. -/
def SegReader.seek (s : SegReader) (fs : FS) (off : Int) : SegReader :=
  { s with cursor := offsetToCursor (itemsOf fs s.segIdx) off }

/-- Modelled from the spec: `SegmentReader.Pos` reports the byte offset of
the cursor. -/
def SegReader.Pos (s : SegReader) (fs : FS) : Int :=
  (itemsSize ((itemsOf fs s.segIdx).take s.cursor) : Int)

/-- `NewSegmentReader`: open the segment file at index `i`, failing when it
is missing from the directory. -/
def NewSegmentReader (fs : FS) (i : Int) : Except WalError SegReader :=
  match fsLookup fs.segments i with
  | some _ => Except.ok ⟨i, 0, [], none⟩
  | none => Except.error (WalError.segNotFound i)

/-- `WALReader` state: index range, current index, current segment reader,
and the reader-level sticky error. -/
structure WALReader where
  first : Int
  last : Int
  index : Int
  seg : Option SegReader
  err : Option WalError
deriving DecidableEq

/-- `WALReader.Reset`: rescan the directory; fail with `ErrNoSegments` when
it holds no segment files; open a segment reader at `first`, offset 0.  The
sticky `err` field is not cleared by the source and is preserved here. -/
def WALReader.Reset (r : WALReader) (fs : FS) : Except WalError WALReader :=
  let range := rangeSegments fs
  if range.1 = -1 then Except.error WalError.noSegments
  else
    match NewSegmentReader fs range.1 with
    | Except.error e => Except.error e
    | Except.ok s =>
      Except.ok { r with first := range.1, last := range.2, index := range.1, seg := some s }

/-- `NewReader`: a zero-valued reader put through `Reset`. -/
def NewReader (fs : FS) : Except WalError WALReader :=
  WALReader.Reset ⟨0, 0, 0, none, none⟩ fs

/-- `WALReader.Pos`: the sentinel `{-1, -1}` when the reader-level sticky
error is set or no segment is open, otherwise `{index, segment offset}`. -/
def WALReader.Pos (r : WALReader) (fs : FS) : Position :=
  match r.err, r.seg with
  | none, some s => ⟨r.index, s.Pos fs⟩
  | _, _ => ⟨-1, -1⟩

/-- The open-and-seek path of `WALReader.Seek` for a target outside the
currently open segment: open the target segment fresh, seek, close the
previous reader and install the new one; an open failure leaves the reader
untouched. -/
def seekOpen (r : WALReader) (fs : FS) (p : Position) : Except WalError Unit × WALReader :=
  match NewSegmentReader fs p.segment with
  | Except.error e => (Except.error e, r)
  | Except.ok s =>
    (Except.ok (), { r with index := p.segment, seg := some (s.seek fs p.offset) })

/-- `WALReader.Seek`: seek within the already-open segment when the target
index matches, otherwise open the target segment fresh. -/
def WALReader.Seek (r : WALReader) (fs : FS) (p : Position) : Except WalError Unit × WALReader :=
  match r.seg with
  | some s =>
    if p.segment = r.index then (Except.ok (), { r with seg := some (s.seek fs p.offset) })
    else seekOpen r fs p
  | none => seekOpen r fs p

/-- `WALReader.Value`: the payload of the most recently decoded record, nil
when no segment is open. -/
def WALReader.Value (r : WALReader) : Bytes :=
  match r.seg with
  | none => []
  | some s => s.val

/-- `WALReader.Error`: the reader-level sticky error, else the segment
reader error. -/
def WALReader.Error (r : WALReader) : Option WalError :=
  match r.err with
  | some e => some e
  | none =>
    match r.seg with
    | some s => s.err
    | none => none

/-- The advance step of `WALReader.next` once the current segment is
exhausted.  The `for` loop of the source returns or breaks on every path of
its body, so it runs exactly one iteration: move to `index + 1` (rescanning
the directory once when that exceeds the highest known index and stopping
when it still does), open that segment (an open failure is sticky), and
report whether it yields a matching record. -/
def WALReader.nextAdvance (r : WALReader) (fs : FS) (typ : RecType) : Bool × WALReader :=
  let idx := r.index + 1
  let r1 := if idx > r.last then { r with last := (rangeSegments fs).2 } else r
  if idx > r1.last then (false, r1)
  else
    let r2 := { r1 with index := idx }
    match NewSegmentReader fs idx with
    | Except.error e => (false, { r2 with err := some e })
    | Except.ok s =>
      let r3 := { r2 with seg := some s }
      match segNext fs s typ with
      | (true, s1) => (true, { r3 with seg := some s1 })
      | (false, s1) => (false, { r3 with seg := some s1 })

/-- `WALReader.next`: clear the sticky error, try the current segment
reader, and on exhaustion advance to the next segment. -/
def WALReader.next (r : WALReader) (fs : FS) (typ : RecType) : Bool × WALReader :=
  let r0 := { r with err := none }
  match r0.seg with
  | some s =>
    match segNext fs s typ with
    | (true, s1) => (true, { r0 with seg := some s1 })
    | (false, s1) => WALReader.nextAdvance { r0 with seg := some s1 } fs typ
  | none => WALReader.nextAdvance r0 fs typ

/-- `WALReader.Next`: `next` filtered to data records. -/
def WALReader.Next (r : WALReader) (fs : FS) : Bool × WALReader :=
  r.next fs RecType.data

/-- The `eof` label of `SeekTag`: return the sticky error when one is set,
otherwise report the end-of-log condition `io.EOF`. -/
def eofBlock (r : WALReader) : Except WalError Unit × WALReader :=
  match r.Error with
  | some e => (Except.error e, r)
  | none => (Except.error WalError.eofErr, r)

/-- Fuel ample enough for the linear tag scan to exhaust the log. -/
def scanFuel (fs : FS) : Nat :=
  (fs.segments.map (fun p => p.2.items.length)).sum + fs.segments.length + 2

/-- The linear-scan loop of `SeekTag`: repeatedly read the next tag record
and succeed on a byte-exact match; when the log is exhausted fall into the
`eof` block.  Fuel only bounds the loop; callers pass enough for the scan to
finish on its own. -/
def linearScan (fs : FS) (tag : Bytes) : Nat → WALReader → Except WalError Unit × WALReader
  | 0, r => eofBlock r
  | fuel+1, r =>
    match r.next fs RecType.tag with
    | (true, r1) => if r1.Value = tag then (Except.ok (), r1) else linearScan fs tag fuel r1
    | (false, r1) => eofBlock r1

/-- `WALReader.SeekTag`: a missing `tags` file falls through to the linear
scan; a present file that fails to decode (empty file: `io.EOF`) is fatal;
a decoded cache with an entry for the tag seeks there and validates by
reading the next tag record, returning success on a byte-exact match and
jumping to the `eof` block otherwise (the `goto eof` of the source); a
decoded cache without an entry falls through to the linear scan. -/
def WALReader.SeekTag (r : WALReader) (fs : FS) (tag : Bytes) :
    Except WalError Unit × WALReader :=
  match fs.tags with
  | TagsFile.absent => linearScan fs tag (scanFuel fs) r
  | TagsFile.empty => (Except.error WalError.eofErr, r)
  | TagsFile.doc m =>
    match cacheLookup m tag with
    | some pos =>
      match r.Seek fs pos with
      | (Except.error e, r1) => (Except.error e, r1)
      | (Except.ok _, r1) =>
        match r1.next fs RecType.tag with
        | (true, r2) =>
          if r2.Value = tag then (Except.ok (), r2) else eofBlock r2
        | (false, r2) => eofBlock r2
    | none => linearScan fs tag (scanFuel fs) r

/-- `BeginRecovery`: open a reader and seek to the tag; `io.EOF` (tag never
written) resets the reader to the start of the log; any other error closes
the reader and is returned. -/
def BeginRecovery (fs : FS) (tag : Bytes) : Except WalError WALReader :=
  match NewReader fs with
  | Except.error e => Except.error e
  | Except.ok r =>
    match r.SeekTag fs tag with
    | (Except.ok _, r1) => Except.ok r1
    | (Except.error e, r1) =>
      if e = WalError.eofErr then
        match r1.Reset fs with
        | Except.error e2 => Except.error e2
        | Except.ok r2 => Except.ok r2
      else Except.error e

/-- One mutating writer operation, for stating whole-session invariants:
a `Write` (with whatever rotation and pruning it triggers), a `WriteTag`
(with the injected append outcome), or a `Close`. -/
inductive WalOp
  | write (data : Bytes) (now : Int)
  | writeTag (tag : Bytes) (now : Int) (ok : Bool)
  | close
deriving DecidableEq

/-- Run one writer operation on a writer-and-directory state. -/
def runOp (st : WALWriter × FS) : WalOp → WALWriter × FS
  | .write data now => st.1.Write st.2 data now
  | .writeTag tag now ok => (st.1.WriteTag st.2 tag now ok).2
  | .close => (st.1, st.1.Close st.2)

/-- Run a sequence of writer operations. -/
def runOps (st : WALWriter × FS) : List WalOp → WALWriter × FS
  | [] => st
  | op :: rest => runOps (runOp st op) rest

end Wal

namespace Wal

/-- Filtering the directory list does not change a lookup whose key passes
the filter everywhere. -/
theorem fsLookup_filter_keepAll (l : List (Int × SegFile)) (q : Int × SegFile → Bool)
    (i : Int) (h : ∀ f, q (i, f) = true) :
    fsLookup (l.filter q) i = fsLookup l i := by
  induction l with
  | nil => rfl
  | cons p t ih =>
    rcases p with ⟨j, f⟩
    by_cases hj : j = i
    · subst hj
      rw [List.filter_cons, if_pos (h f)]
      simp [fsLookup]
    · rw [List.filter_cons]
      cases hq : q (j, f) <;> simp [fsLookup, hj, ih, hq]

/-- Filtering the directory list erases a lookup whose key fails the filter
everywhere. -/
theorem fsLookup_filter_dropAll (l : List (Int × SegFile)) (q : Int × SegFile → Bool)
    (i : Int) (h : ∀ f, q (i, f) = false) :
    fsLookup (l.filter q) i = none := by
  induction l with
  | nil => rfl
  | cons p t ih =>
    rcases p with ⟨j, f⟩
    by_cases hj : j = i
    · subst hj
      rw [List.filter_cons, h f]
      simpa using ih
    · rw [List.filter_cons]
      cases hq : q (j, f) <;> simp [fsLookup, hj, ih, hq]

/-- Lookup after the deletion loop: indices in `[lo, hi)` are gone, the rest
are untouched. -/
theorem removeRange_lookup (fs : FS) (lo hi i : Int) :
    fsLookup (removeRange fs lo hi).segments i =
      if lo ≤ i ∧ i < hi then none else fsLookup fs.segments i := by
  unfold removeRange
  by_cases h : lo ≤ i ∧ i < hi
  · rw [if_pos h]
    exact fsLookup_filter_dropAll _ _ _ (fun f => by simp [h])
  · rw [if_neg h]
    exact fsLookup_filter_keepAll _ _ _ (fun f => by simp [h])

/-- Pruning changes the directory exactly by the deletion loop. -/
theorem pruneSegments_segments (w : WALWriter) (fs : FS) (total : Int)
    (exp : Option Int) :
    ((pruneSegments w fs total exp).2).segments =
      (removeRange fs w.first (pruneStart w fs total exp)).segments := by
  unfold pruneSegments
  dsimp only
  split
  · split <;> rfl
  · rfl

/-- Pruning never changes the writer index. -/
theorem pruneSegments_fst_index (w : WALWriter) (fs : FS) (total : Int)
    (exp : Option Int) :
    ((pruneSegments w fs total exp).1).index = w.index := by
  unfold pruneSegments
  dsimp only
  split
  · split <;> rfl
  · rfl

/-- Pruning never changes the writer options. -/
theorem pruneSegments_fst_opts (w : WALWriter) (fs : FS) (total : Int)
    (exp : Option Int) :
    ((pruneSegments w fs total exp).1).opts = w.opts := by
  unfold pruneSegments
  dsimp only
  split
  · split <;> rfl
  · rfl

/-- The empty directory value used by concrete instances. -/
def fsEmptyW : FS := ⟨[], TagsFile.absent⟩

/-- C2: `WriteTag` records the position captured before the tag append as
`{current index, segment offset}`; a failed segment append returns the error
with the in-memory cache and the `tags` file unchanged; a successful append
is followed by the cache update (overwriting any prior entry for the name)
and the truncate-rewrite-fsync of the `tags` file with exactly the updated
cache. -/
theorem C2_writeTag_cache_order (w : WALWriter) (fs : FS) (tag : Bytes) (now : Int) :
    (w.WriteTag fs tag now false = (Except.error WalError.injected, w, fs)) ∧
    ((w.WriteTag fs tag now true).1 = Except.ok ()) ∧
    ((w.WriteTag fs tag now true).2.1.cache =
        cacheInsert w.cache tag ⟨w.index, segSize fs w.index⟩) ∧
    ((w.WriteTag fs tag now true).2.1.first = w.first) ∧
    ((w.WriteTag fs tag now true).2.1.index = w.index) ∧
    ((w.WriteTag fs tag now true).2.2.tags =
        TagsFile.doc (cacheInsert w.cache tag ⟨w.index, segSize fs w.index⟩)) ∧
    ((w.WriteTag fs tag now true).2.2.segments =
        (appendItem fs w.index (Item.record ⟨RecType.tag, tag⟩) now).segments) :=
  ⟨rfl, rfl, rfl, rfl, rfl, rfl, rfl⟩

/-- C8: opening a writer truncates the `tags` sidecar file and starts with an
empty in-memory cache, erasing entries persisted by earlier sessions; and
against any directory whose `tags` file is empty, `SeekTag` returns the JSON
decode error `io.EOF` at once, without the linear-scan fallback, leaving the
reader untouched. -/
theorem C8_truncated_cache_eof (fs : FS) (opts : WriteOptions) (now : Int)
    (r : WALReader) (fs1 : FS) (tag : Bytes) (h : fs1.tags = TagsFile.empty) :
    ((NewWithOptions fs opts now).2.tags = TagsFile.empty) ∧
    ((NewWithOptions fs opts now).1.cache = []) ∧
    (r.SeekTag fs1 tag = (Except.error WalError.eofErr, r)) := by
  refine ⟨?_, rfl, ?_⟩
  · unfold NewWithOptions ensureSegment
    dsimp only
    split <;> rfl
  · unfold WALReader.SeekTag
    rw [h]

/-- Concrete directory for the C8 witness: the `tags` file is empty while a
tag record for `[99]` sits in segment 0. -/
def fsC8 : FS := ⟨[(0, ⟨[Item.record ⟨RecType.tag, [99]⟩], 0⟩)], TagsFile.empty⟩

/-- Concrete reader for the C8 witness. -/
def rC8 : WALReader := ⟨0, 0, 0, some ⟨0, 0, [], none⟩, none⟩

/-- C8 witness: the tag record exists in segment 0, yet `SeekTag` on the
empty cache file reports the decode error without scanning. -/
theorem C8_truncated_cache_eof_witness :
    fsC8.tags = TagsFile.empty ∧
    rC8.SeekTag fsC8 [99] = (Except.error WalError.eofErr, rC8) :=
  ⟨rfl, (C8_truncated_cache_eof fsEmptyW ⟨0, 0, 0, 0⟩ 0 rC8 fsC8 [99] rfl).2.2⟩

/-- Concrete reader whose segment reader carries a sticky corruption error
while the reader-level error field is clear. -/
def rC9 : WALReader := ⟨0, 0, 0, some ⟨0, 0, [], some WalError.injected⟩, none⟩

/-- C9 counterexample: a sticky error in the underlying segment reader makes
`Error()` non-nil, yet `Pos()` does not return the `{-1,-1}` sentinel. -/
theorem C9_counterexample :
    rC9.Error = some WalError.injected ∧
    rC9.Pos fsEmptyW = ⟨0, 0⟩ ∧
    rC9.Pos fsEmptyW ≠ ⟨-1, -1⟩ :=
  ⟨rfl, rfl, by decide⟩

/-- C9 amended: `Pos()` returns the `{-1,-1}` sentinel exactly when the
reader-level sticky error field is set or no segment is open; an error sticky
only in the underlying segment reader (still reported by `Error()`) leaves
`Pos()` returning the current `{index, offset}`. -/
theorem C9_pos_sentinel (r : WALReader) (fs : FS) :
    ((r.err ≠ none ∨ r.seg = none) → r.Pos fs = ⟨-1, -1⟩) ∧
    (∀ s, r.err = none → r.seg = some s → r.Pos fs = ⟨r.index, s.Pos fs⟩) := by
  unfold WALReader.Pos
  cases herr : r.err <;> cases hseg : r.seg <;> simp_all

/-- Concrete reader with the reader-level sticky error set. -/
def rC9b : WALReader := ⟨0, 0, 0, none, some WalError.injected⟩

/-- C9 witness: the sentinel at a reader-level error, and the live position at
a segment-level error. -/
theorem C9_pos_sentinel_witness :
    rC9b.Pos fsEmptyW = ⟨-1, -1⟩ ∧
    rC9.Pos fsEmptyW = ⟨0, SegReader.Pos ⟨0, 0, [], some WalError.injected⟩ fsEmptyW⟩ :=
  ⟨(C9_pos_sentinel rC9b fsEmptyW).1 (Or.inl (by decide)),
   (C9_pos_sentinel rC9 fsEmptyW).2 ⟨0, 0, [], some WalError.injected⟩ rfl rfl⟩

end Wal

namespace Wal

/-- Directory for the C1 counterexample: the cache entry for tag `[99]`
points at offset 0 of segment 0, where a data record and then a different tag
record `[111]` precede the real `[99]` tag record. -/
def fsC1 : FS := ⟨[(0, ⟨[Item.record ⟨RecType.data, [120]⟩,
  Item.record ⟨RecType.tag, [111]⟩,
  Item.record ⟨RecType.tag, [99]⟩], 0⟩)],
  TagsFile.doc [([99], ⟨0, 0⟩)]⟩

/-- Fresh reader over `fsC1`. -/
def rC1 : WALReader := ⟨0, 0, 0, some ⟨0, 0, [], none⟩, none⟩

/-- Reader state after the failed cache validation in `fsC1`. -/
def rC1v : WALReader := ⟨0, 0, 0, some ⟨0, 2, [111], none⟩, none⟩

/-- C1 counterexample: validation of the stale cache entry fails (the next
tag-typed record holds `[111]`, not `[99]`), and `SeekTag` reports `io.EOF`
with no fallback scan — although one further `next` over tag records from the
resulting cursor immediately finds the matching `[99]` record. -/
theorem C1_counterexample :
    rC1.SeekTag fsC1 [99] = (Except.error WalError.eofErr, rC1v) ∧
    (rC1v.next fsC1 RecType.tag).1 = true ∧
    (rC1v.next fsC1 RecType.tag).2.Value = [99] :=
  ⟨rfl, rfl, rfl⟩

/-- C1 amended: when the decoded cache holds an entry for the tag, the seek
succeeds, but validation fails (the next tag-typed read does not yield a
payload equal to the tag), `SeekTag` does not fall back to the linear scan:
it returns the sticky error when one is set and the end-of-log `io.EOF`
otherwise, directly from the `eof` block. -/
theorem C1_validation_failure_no_scan (r r1 r2 : WALReader) (fs : FS) (tag : Bytes)
    (m : List (Bytes × Position)) (pos : Position) (b : Bool)
    (hdoc : fs.tags = TagsFile.doc m)
    (hfound : cacheLookup m tag = some pos)
    (hseek : r.Seek fs pos = (Except.ok (), r1))
    (hnext : r1.next fs RecType.tag = (b, r2))
    (hfail : ¬ (b = true ∧ r2.Value = tag)) :
    (r2.Error = none → r.SeekTag fs tag = (Except.error WalError.eofErr, r2)) ∧
    (∀ e, r2.Error = some e → r.SeekTag fs tag = (Except.error e, r2)) := by
  have hmain : r.SeekTag fs tag = eofBlock r2 := by
    unfold WALReader.SeekTag
    rw [hdoc]
    dsimp only
    rw [hfound]
    dsimp only
    rw [hseek]
    dsimp only
    rw [hnext]
    cases b with
    | false => rfl
    | true =>
      have hv : ¬ r2.Value = tag := fun hv => hfail ⟨rfl, hv⟩
      simp [hv]
  refine ⟨fun he => ?_, fun e he => ?_⟩
  · rw [hmain]; unfold eofBlock; rw [he]
  · rw [hmain]; unfold eofBlock; rw [he]

/-- C1 witness: the amended behaviour at the concrete stale-cache state. -/
theorem C1_validation_failure_no_scan_witness :
    rC1.SeekTag fsC1 [99] = (Except.error WalError.eofErr, rC1v) :=
  (C1_validation_failure_no_scan rC1 rC1 rC1v fsC1 [99] [([99], ⟨0, 0⟩)] ⟨0, 0⟩ true
    rfl rfl rfl rfl (by decide)).1 rfl

/-- The TTL walk never moves past a present segment whose modification time
is after the expiration bound. -/
theorem ttlAdvance_le_unexpired (fs : FS) (e : Int) (f : SegFile) (i : Int)
    (hf : fsLookup fs.segments i = some f) (hm : f.modTime > e) :
    ∀ (fuel : Nat) (s : Int), s ≤ i → ttlAdvance fs e fuel s ≤ i := by
  intro fuel
  induction fuel with
  | zero => intro s hs; exact hs
  | succ n ih =>
    intro s hs
    by_cases hsi : s = i
    · subst hsi
      unfold ttlAdvance
      rw [hf]
      dsimp only
      rw [if_pos hm]
    · have hs1 : s + 1 ≤ i := by omega
      unfold ttlAdvance
      cases hl : fsLookup fs.segments s with
      | none => exact ih (s + 1) hs1
      | some g =>
        dsimp only
        by_cases hg : g.modTime > e
        · rw [if_pos hg]; exact hs
        · rw [if_neg hg]; exact ih (s + 1) hs1

/-- Writer for the C3 counterexample: `first = 0`, `index = 2`,
`maxSegments = 1`. -/
def wC3 : WALWriter := ⟨⟨100, 1, 0, 0⟩, 0, 2, []⟩

/-- Directory for the C3 counterexample: segments 0, 1, 2 all modified at
time 10, after the expiration bound 5. -/
def fsC3 : FS := ⟨[(0, ⟨[], 10⟩), (1, ⟨[], 10⟩), (2, ⟨[], 10⟩)], TagsFile.empty⟩

/-- C3 counterexample: TTL enabled with `expireBefore = 5`; segment 1 was
modified at time 10 (after `expireBefore`, inside its TTL window) and lies
below the count boundary `index - maxSegments + 1 = 2`; the pruning pass
deletes it anyway. -/
theorem C3_counterexample :
    fsLookup fsC3.segments 1 = some ⟨[], 10⟩ ∧
    ((10 : Int) > 5) ∧
    fsLookup ((pruneSegments wC3 fsC3 1 (some 5)).2).segments 1 = none :=
  ⟨rfl, by decide, rfl⟩

/-- C3 amended: the TTL walk only extends pruning beyond the count boundary;
in a pass with TTL enabled, every segment with index at or above
`index - maxSegments + 1` whose modification time is after `expireBefore`
survives, while segments below the count boundary are deleted regardless of
modification time. -/
theorem C3_ttl_keeps_unexpired (w : WALWriter) (fs : FS) (total e i : Int) (f : SegFile)
    (hi : w.index - total + 1 ≤ i)
    (hf : fsLookup fs.segments i = some f)
    (hm : f.modTime > e) :
    fsLookup ((pruneSegments w fs total (some e)).2).segments i = some f := by
  rw [pruneSegments_segments, removeRange_lookup]
  by_cases hcase : w.first ≤ i ∧ i < pruneStart w fs total (some e)
  · exfalso
    obtain ⟨hfi, hlt⟩ := hcase
    have hstart : pruneStart w fs total (some e) ≤ i := by
      unfold pruneStart
      dsimp only
      apply ttlAdvance_le_unexpired fs e f i hf hm
      split <;> omega
    omega
  · rw [if_neg hcase, hf]

/-- Writer for the C3 witness: `first = 0`, `index = 3`. -/
def wC3w : WALWriter := ⟨⟨20, 10, 0, 0⟩, 0, 3, []⟩

/-- Directory for the C3 witness: segments 0 and 1 expired, segments 2 and 3
still inside the TTL window. -/
def fsC3w : FS := ⟨[(0, ⟨[], 1⟩), (1, ⟨[], 1⟩), (2, ⟨[], 10⟩), (3, ⟨[], 10⟩)], TagsFile.empty⟩

/-- C3 witness: segment 2 sits at the count boundary with a modification time
after the expiration bound and survives the pass. -/
theorem C3_ttl_keeps_unexpired_witness :
    ((3 : Int) - 2 + 1 ≤ 2) ∧
    fsLookup ((pruneSegments wC3w fsC3w 2 (some 5)).2).segments 2 = some ⟨[], 10⟩ :=
  ⟨by decide, C3_ttl_keeps_unexpired wC3w fsC3w 2 5 2 ⟨[], 10⟩ (by decide) rfl (by decide)⟩

/-- Unfolding equation of `Write` as an if-then-else on the projected size. -/
theorem Write_eq (w : WALWriter) (fs : FS) (data : Bytes) (now : Int) :
    w.Write fs data now =
      if (data.length : Int) + averageOverhead + segSize fs w.index > w.opts.SegmentSize then
        ((pruneSegments (rotateSegment w fs now).1 (rotateSegment w fs now).2
            w.opts.MaxSegments (writeExpireBefore w.opts now)).1,
         appendItem
           (pruneSegments (rotateSegment w fs now).1 (rotateSegment w fs now).2
              w.opts.MaxSegments (writeExpireBefore w.opts now)).2
           (pruneSegments (rotateSegment w fs now).1 (rotateSegment w fs now).2
              w.opts.MaxSegments (writeExpireBefore w.opts now)).1.index
           (Item.record ⟨RecType.data, data⟩) now)
      else (w, appendItem fs w.index (Item.record ⟨RecType.data, data⟩) now) := rfl

/-- C4: a `Write` rotates — its index grows by exactly one — if and only if
the projected size `current size + len(p) + 7` exceeds the configured
`SegmentSize`; on rotation the result is the append into the
rotate-then-prune state (pruning after rotation, append last); otherwise it
is the plain append with the writer untouched. -/
theorem C4_write_rotation (w : WALWriter) (fs : FS) (data : Bytes) (now : Int) :
    (((w.Write fs data now).1.index = w.index + 1) ↔
      ((data.length : Int) + averageOverhead + segSize fs w.index > w.opts.SegmentSize)) ∧
    (((data.length : Int) + averageOverhead + segSize fs w.index > w.opts.SegmentSize) →
      w.Write fs data now =
        ((pruneSegments (rotateSegment w fs now).1 (rotateSegment w fs now).2
            w.opts.MaxSegments (writeExpireBefore w.opts now)).1,
         appendItem
           (pruneSegments (rotateSegment w fs now).1 (rotateSegment w fs now).2
              w.opts.MaxSegments (writeExpireBefore w.opts now)).2
           (pruneSegments (rotateSegment w fs now).1 (rotateSegment w fs now).2
              w.opts.MaxSegments (writeExpireBefore w.opts now)).1.index
           (Item.record ⟨RecType.data, data⟩) now)) ∧
    (¬ ((data.length : Int) + averageOverhead + segSize fs w.index > w.opts.SegmentSize) →
      w.Write fs data now = (w, appendItem fs w.index (Item.record ⟨RecType.data, data⟩) now)) := by
  by_cases hc : (data.length : Int) + averageOverhead + segSize fs w.index > w.opts.SegmentSize
  · refine ⟨⟨fun _ => hc, fun _ => ?_⟩, fun _ => ?_, fun h => absurd hc h⟩
    · rw [Write_eq, if_pos hc]
      rw [pruneSegments_fst_index]
      rfl
    · rw [Write_eq, if_pos hc]
  · refine ⟨⟨fun hidx => ?_, fun h => absurd h hc⟩, fun h => absurd h hc, fun _ => ?_⟩
    · exfalso
      rw [Write_eq, if_neg hc] at hidx
      dsimp only at hidx
      omega
    · rw [Write_eq, if_neg hc]

/-- Options for the C4 witness: 20-byte segments. -/
def optsC4 : WriteOptions := ⟨20, 10, 0, 0⟩

/-- Fresh writer over an empty directory for the C4 witness. -/
def wfsC4 : WALWriter × FS := NewWithOptions fsEmptyW optsC4 0

/-- Writer state after writing 12 bytes (19 projected bytes, below 20, so no
rotation). -/
def wfsC4b : WALWriter × FS := WALWriter.Write wfsC4.1 wfsC4.2 (List.replicate 12 97) 0

/-- C4 witness: the 12-byte first write leaves index 0; the 30-byte second
write projects over 20 bytes and rotates the index from 0 to 1. -/
theorem C4_write_rotation_witness :
    wfsC4b.1.index = 0 ∧
    (((List.replicate 30 98).length : Int) + averageOverhead + segSize wfsC4b.2 wfsC4b.1.index >
      wfsC4b.1.opts.SegmentSize) ∧
    (WALWriter.Write wfsC4b.1 wfsC4b.2 (List.replicate 30 98) 0).1.index = wfsC4b.1.index + 1 := by
  refine ⟨rfl, by decide, ?_⟩
  exact (C4_write_rotation wfsC4b.1 wfsC4b.2 (List.replicate 30 98) 0).1.mpr (by decide)

end Wal

namespace Wal

/-- A cache whose entries all sit at or above the cutoff is unchanged by the
pruning filter. -/
theorem cache_filter_eq_self (c : List (Bytes × Position)) (cut : Int)
    (h : ∀ p ∈ c, cut ≤ p.2.segment) :
    c.filter (fun p => decide (¬ p.2.segment < cut)) = c := by
  induction c with
  | nil => rfl
  | cons p t ih =>
    have hp : cut ≤ p.2.segment := h p (List.mem_cons_self p t)
    rw [List.filter_cons, if_pos (by simpa using not_lt.mpr hp)]
    rw [ih (fun q hq => h q (List.mem_cons_of_mem p hq))]

/-- A cache whose entries all sit at or above the cutoff has no entry below
it. -/
theorem cache_any_eq_false (c : List (Bytes × Position)) (cut : Int)
    (h : ∀ p ∈ c, cut ≤ p.2.segment) :
    c.any (fun p => decide (p.2.segment < cut)) = false := by
  rw [List.any_eq_false]
  intro p hp
  simpa using not_lt.mpr (h p hp)

/-- With the TTL disabled, `startAt` is exactly the count cutoff
`max(first, index - total + 1)`. -/
theorem pruneStart_none (w : WALWriter) (fs : FS) (total : Int) :
    pruneStart w fs total none = max w.first (w.index - total + 1) := by
  unfold pruneStart
  dsimp only
  split <;> omega

/-- C5: with the TTL disabled, a pruning pass on a state whose cache entries
all lie at or above `first` behaves exactly as the count policy says: the
cutoff is `max(first, index - maxSegments + 1)`; segments in
`[first, cutoff)` are deleted and all others untouched; `index` is
unchanged and `first` becomes the cutoff; cache entries below the cutoff are
removed; the `tags` file is rewritten exactly when at least one entry was
removed; and every surviving segment at or above `first` lies at or above
the cutoff, which is within `maxSegments` of `index`. -/
theorem C5_prune_count (w : WALWriter) (fs : FS) (total : Int)
    (hcache : ∀ p ∈ w.cache, w.first ≤ p.2.segment) :
    (pruneStart w fs total none = max w.first (w.index - total + 1)) ∧
    (∀ i, fsLookup ((pruneSegments w fs total none).2).segments i =
      if w.first ≤ i ∧ i < max w.first (w.index - total + 1) then none
      else fsLookup fs.segments i) ∧
    ((pruneSegments w fs total none).1.index = w.index) ∧
    ((pruneSegments w fs total none).1.first = max w.first (w.index - total + 1)) ∧
    ((pruneSegments w fs total none).1.cache =
      w.cache.filter (fun p => decide (¬ p.2.segment < max w.first (w.index - total + 1)))) ∧
    ((pruneSegments w fs total none).2.tags =
      if w.cache.any (fun p => decide (p.2.segment < max w.first (w.index - total + 1))) = true
      then TagsFile.doc ((pruneSegments w fs total none).1.cache)
      else fs.tags) ∧
    (∀ i, w.first ≤ i → fsLookup ((pruneSegments w fs total none).2).segments i ≠ none →
      max w.first (w.index - total + 1) ≤ i) ∧
    (w.index - max w.first (w.index - total + 1) + 1 ≤ total) := by
  have hps := pruneStart_none w fs total
  have hsegs : ∀ i, fsLookup ((pruneSegments w fs total none).2).segments i =
      if w.first ≤ i ∧ i < max w.first (w.index - total + 1) then none
      else fsLookup fs.segments i := by
    intro i
    rw [pruneSegments_segments, removeRange_lookup, hps]
  have hfirst : (pruneSegments w fs total none).1.first =
      max w.first (w.index - total + 1) := by
    unfold pruneSegments
    rw [hps]
    dsimp only
    split
    · split <;> rfl
    · rename_i hlt
      dsimp only
      omega
  have hcacheq : (pruneSegments w fs total none).1.cache =
      w.cache.filter (fun p => decide (¬ p.2.segment < max w.first (w.index - total + 1))) := by
    unfold pruneSegments
    rw [hps]
    dsimp only
    split
    · split <;> rfl
    · rename_i hlt
      dsimp only
      have hall : ∀ p ∈ w.cache, max w.first (w.index - total + 1) ≤ p.2.segment := by
        intro p hp
        have h1 := hcache p hp
        omega
      rw [cache_filter_eq_self w.cache _ hall]
  have htags : (pruneSegments w fs total none).2.tags =
      if w.cache.any (fun p => decide (p.2.segment < max w.first (w.index - total + 1))) = true
      then TagsFile.doc ((pruneSegments w fs total none).1.cache)
      else fs.tags := by
    rw [hcacheq]
    unfold pruneSegments
    rw [hps]
    dsimp only
    split
    · rename_i hge
      cases hany : w.cache.any (fun p => decide (p.2.segment < max w.first (w.index - total + 1))) with
      | false => rfl
      | true => rfl
    · rename_i hlt
      have hall : ∀ p ∈ w.cache, max w.first (w.index - total + 1) ≤ p.2.segment := by
        intro p hp
        have h1 := hcache p hp
        omega
      have hany : w.cache.any (fun p => decide (p.2.segment < max w.first (w.index - total + 1))) = false :=
        cache_any_eq_false w.cache _ hall
      have hneg : ¬ (w.cache.any (fun p => decide (p.2.segment < max w.first (w.index - total + 1))) = true) := by
        rw [hany]
        decide
      rw [if_neg hneg]
      rfl
  refine ⟨hps, hsegs, pruneSegments_fst_index w fs total none, hfirst, hcacheq, htags, ?_, by omega⟩
  intro i hfi hne
  rcases hc : decide (w.first ≤ i ∧ i < max w.first (w.index - total + 1)) with _ | _
  · have := of_decide_eq_false hc
    omega
  · exfalso
    apply hne
    rw [hsegs i, if_pos (of_decide_eq_true hc)]

/-- Writer for the C5 witness: two cache entries, one below the coming
cutoff. -/
def wC5 : WALWriter := ⟨⟨20, 10, 0, 0⟩, 0, 2, [([99], ⟨0, 0⟩), ([100], ⟨2, 5⟩)]⟩

/-- Directory for the C5 witness: segments 0, 1, 2 with the persisted cache
document. -/
def fsC5 : FS := ⟨[(0, ⟨[], 3⟩), (1, ⟨[], 3⟩), (2, ⟨[], 3⟩)],
  TagsFile.doc [([99], ⟨0, 0⟩), ([100], ⟨2, 5⟩)]⟩

/-- C5 witness: a concrete pass with `maxSegments = 1` moves `first` to the
cutoff 2 and keeps exactly the cache entries at or above it. -/
theorem C5_prune_count_witness :
    (pruneSegments wC5 fsC5 1 none).1.first = max wC5.first (wC5.index - 1 + 1) ∧
    (pruneSegments wC5 fsC5 1 none).1.cache = [([100], ⟨2, 5⟩)] ∧
    fsLookup (pruneSegments wC5 fsC5 1 none).2.segments 0 = none := by
  refine ⟨(C5_prune_count wC5 fsC5 1 (by decide)).2.2.2.1, ?_, ?_⟩
  · rw [(C5_prune_count wC5 fsC5 1 (by decide)).2.2.2.2.1]
    decide
  · rw [(C5_prune_count wC5 fsC5 1 (by decide)).2.1 0]
    decide

/-- Directory for the C6 witness: one segment with a single data record and
no `tags` file. -/
def fsC6 : FS := ⟨[(0, ⟨[Item.record ⟨RecType.data, [97]⟩], 0⟩)], TagsFile.absent⟩

/-- The reader opened over `fsC6`. -/
def rC6 : WALReader := ⟨0, 0, 0, some ⟨0, 0, [], none⟩, none⟩

/-- C6: once `NewReader` succeeds, `BeginRecovery` returns the reader
positioned by a successful `SeekTag`; when `SeekTag` reports the end-of-log
condition `io.EOF` (tag never written) the reader is reset to the very start
of the log — its index at `first` with a fresh segment reader at offset 0 —
and returned successfully; any other `SeekTag` error is returned as the
failure. -/
theorem C6_beginRecovery_cases (fs : FS) (tag : Bytes) (r : WALReader)
    (h : NewReader fs = Except.ok r) :
    (∀ r1, r.SeekTag fs tag = (Except.ok (), r1) → BeginRecovery fs tag = Except.ok r1) ∧
    (∀ r1, r.SeekTag fs tag = (Except.error WalError.eofErr, r1) →
      ∃ r2, r1.Reset fs = Except.ok r2 ∧ BeginRecovery fs tag = Except.ok r2 ∧
        r2.index = r2.first ∧ r2.seg = some ⟨r2.first, 0, [], none⟩) ∧
    (∀ e r1, r.SeekTag fs tag = (Except.error e, r1) → e ≠ WalError.eofErr →
      BeginRecovery fs tag = Except.error e) := by
  have hrange : ¬ (rangeSegments fs).1 = -1 := by
    intro hneg
    unfold NewReader WALReader.Reset at h
    rw [if_pos hneg] at h
    exact absurd h (by simp)
  obtain ⟨s0, hs0⟩ : ∃ s, NewSegmentReader fs (rangeSegments fs).1 = Except.ok s := by
    cases hn : NewSegmentReader fs (rangeSegments fs).1 with
    | error e =>
      unfold NewReader WALReader.Reset at h
      rw [if_neg hrange] at h
      dsimp only at h
      rw [hn] at h
      exact absurd h (by simp)
    | ok s => exact ⟨s, rfl⟩
  have hs0val : s0 = ⟨(rangeSegments fs).1, 0, [], none⟩ := by
    unfold NewSegmentReader at hs0
    cases hl : fsLookup fs.segments (rangeSegments fs).1 with
    | none => rw [hl] at hs0; exact absurd hs0 (by simp)
    | some f =>
      rw [hl] at hs0
      dsimp only at hs0
      exact (Except.ok.inj hs0).symm
  have hreset : ∀ r1 : WALReader, r1.Reset fs =
      Except.ok { r1 with first := (rangeSegments fs).1, last := (rangeSegments fs).2, index := (rangeSegments fs).1, seg := some s0 } := by
    intro r1
    unfold WALReader.Reset
    rw [if_neg hrange]
    rw [hs0]
  refine ⟨?_, ?_, ?_⟩
  · intro r1 hst
    unfold BeginRecovery
    rw [h]
    dsimp only
    rw [hst]
  · intro r1 hst
    refine ⟨_, hreset r1, ?_, rfl, by rw [hs0val]⟩
    unfold BeginRecovery
    rw [h]
    dsimp only
    rw [hst]
    dsimp only
    rw [if_pos rfl, hreset r1]
  · intro e r1 hst hne
    unfold BeginRecovery
    rw [h]
    dsimp only
    rw [hst]
    dsimp only
    rw [if_neg hne]

/-- C6 witness: tag `[116]` was never written; `SeekTag` reports the
end-of-log condition and `BeginRecovery` returns the reader reset to the
start of the log. -/
theorem C6_beginRecovery_cases_witness :
    NewReader fsC6 = Except.ok rC6 ∧ BeginRecovery fsC6 [116] = Except.ok rC6 := by
  refine ⟨rfl, ?_⟩
  obtain ⟨r2, h1, h2, -, -⟩ := (C6_beginRecovery_cases fsC6 [116] rC6 rfl).2.1 rC6 rfl
  have h3 : WALReader.Reset rC6 fsC6 = Except.ok rC6 := rfl
  rw [h1] at h3
  rw [Except.ok.inj h3] at h2
  exact h2

end Wal

namespace Wal

/-- Directory for the C7 counterexample: segment 1 holds only a tag record;
segment 2 holds a data record. -/
def fsC7 : FS := ⟨[(0, ⟨[Item.record ⟨RecType.data, [97]⟩], 0⟩),
  (1, ⟨[Item.record ⟨RecType.tag, [116]⟩], 0⟩),
  (2, ⟨[Item.record ⟨RecType.data, [98]⟩], 0⟩)], TagsFile.absent⟩

/-- Reader positioned after consuming the only record of segment 0. -/
def rC7 : WALReader := ⟨0, 2, 0, some ⟨0, 1, [97], none⟩, none⟩

/-- C7 counterexample: with the current segment exhausted, one `Next()` call
moves to segment 1, finds no data record there, and returns false with no
error — it does not reach the data record sitting in segment 2. -/
theorem C7_counterexample :
    (rC7.Next fsC7).1 = false ∧
    (rC7.Next fsC7).2.Error = none ∧
    (rC7.Next fsC7).2.index = 1 ∧
    scanItems RecType.data (itemsOf fsC7 2) = some (0, [98]) :=
  ⟨rfl, rfl, rfl, rfl⟩

/-- A `next` call whose current segment reader is exhausted reduces to the
advance step. -/
theorem next_exhausted (r : WALReader) (fs : FS) (typ : RecType) (s : SegReader)
    (hseg : r.seg = some s) (hex : segNext fs s typ = (false, s)) :
    r.next fs typ = WALReader.nextAdvance { r with err := none } fs typ := by
  unfold WALReader.next
  dsimp only
  rw [hseg]
  dsimp only
  rw [hex]

/-- C7 amended: a single `next()` call whose current segment is exhausted
advances by exactly one segment.  When `index + 1` exceeds the highest known
index, the directory is rescanned once and the call returns false with no
error if it still exceeds it; when the next indexed file is missing, false
with a sticky open error; when the next segment exists, the reader moves to
it and the call returns true or false according to that single segment
containing a matching record — returning false with no error even when a
later segment holds one. -/
theorem C7_single_segment_advance (r : WALReader) (fs : FS) (typ : RecType) (s : SegReader)
    (hseg : r.seg = some s) (hex : segNext fs s typ = (false, s)) :
    (r.index + 1 > r.last → r.index + 1 > (rangeSegments fs).2 →
      r.next fs typ = (false, { r with err := none, last := (rangeSegments fs).2 })) ∧
    (¬ r.index + 1 > r.last → fsLookup fs.segments (r.index + 1) = none →
      r.next fs typ = (false, { r with err := some (WalError.segNotFound (r.index + 1)), index := r.index + 1 })) ∧
    (∀ f, ¬ r.index + 1 > r.last → fsLookup fs.segments (r.index + 1) = some f →
      scanItems typ f.items = none →
      r.next fs typ = (false, { r with err := none, index := r.index + 1, seg := some ⟨r.index + 1, 0, [], none⟩ })) ∧
    (∀ f k payload, ¬ r.index + 1 > r.last → fsLookup fs.segments (r.index + 1) = some f →
      scanItems typ f.items = some (k, payload) →
      r.next fs typ = (true, { r with err := none, index := r.index + 1, seg := some ⟨r.index + 1, k + 1, payload, none⟩ })) := by
  have hbase := next_exhausted r fs typ s hseg hex
  refine ⟨fun h1 h2 => ?_, fun h1 hm => ?_, fun f h1 hf hscan => ?_,
    fun f k payload h1 hf hscan => ?_⟩
  · rw [hbase]
    unfold WALReader.nextAdvance
    dsimp only
    rw [if_pos h1]
    dsimp only
    rw [if_pos h2]
  · rw [hbase]
    unfold WALReader.nextAdvance
    dsimp only
    rw [if_neg h1]
    dsimp only
    rw [if_neg h1]
    unfold NewSegmentReader
    rw [hm]
  · rw [hbase]
    unfold WALReader.nextAdvance
    dsimp only
    rw [if_neg h1]
    dsimp only
    rw [if_neg h1]
    unfold NewSegmentReader
    rw [hf]
    dsimp only
    unfold segNext itemsOf
    rw [hf]
    dsimp only
    rw [List.drop_zero, hscan]
  · rw [hbase]
    unfold WALReader.nextAdvance
    dsimp only
    rw [if_neg h1]
    dsimp only
    rw [if_neg h1]
    unfold NewSegmentReader
    rw [hf]
    dsimp only
    unfold segNext itemsOf
    rw [hf]
    dsimp only
    rw [List.drop_zero, hscan]
    dsimp only
    rw [Nat.zero_add]

/-- C7 witness: the amended single-step behaviour at the concrete state of
the counterexample — the call lands in segment 1 and stops there. -/
theorem C7_single_segment_advance_witness :
    rC7.Next fsC7 = (false, ⟨0, 2, 1, some ⟨1, 0, [], none⟩, none⟩) := by
  have h := (C7_single_segment_advance rC7 fsC7 RecType.data ⟨0, 1, [97], none⟩ rfl rfl).2.2.1
  exact h ⟨[Item.record ⟨RecType.tag, [116]⟩], 0⟩ (by decide) rfl rfl

end Wal

namespace Wal

/-- Options with `MaxSegments = 0` for the C10 counterexample. -/
def optsC10 : WriteOptions := ⟨10, 0, 0, 0⟩

/-- Fresh writer over an empty directory under `optsC10`. -/
def wfsC10 : WALWriter × FS := NewWithOptions fsEmptyW optsC10 0

/-- State after one size-triggered Write under `MaxSegments = 0`. -/
def wfsC10b : WALWriter × FS := WALWriter.Write wfsC10.1 wfsC10.2 (List.replicate 8 97) 0

/-- C10 counterexample: with `MaxSegments = 0` a single size-triggered Write
prunes past the freshly rotated segment and leaves `first = 2 > index = 1`. -/
theorem C10_counterexample :
    wfsC10b.1.first = 2 ∧ wfsC10b.1.index = 1 ∧ ¬ wfsC10b.1.first ≤ wfsC10b.1.index :=
  ⟨rfl, rfl, by decide⟩

/-- Invariant of the range-scan fold: the running minimum never exceeds the
running maximum, up to the `-1` unset sentinels. -/
def rangeInv (acc : Int × Int) : Prop :=
  (acc.1 = -1 → -1 ≤ acc.2) ∧ (acc.2 = -1 → acc.1 ≤ -1) ∧
    (acc.1 ≠ -1 → acc.2 ≠ -1 → acc.1 ≤ acc.2)

/-- One fold step preserves the range invariant. -/
theorem rangeStep_inv (acc : Int × Int) (i : Int) (h : rangeInv acc) :
    rangeInv (rangeStep acc i) := by
  obtain ⟨h1, h2, h3⟩ := h
  unfold rangeInv rangeStep
  dsimp only
  by_cases ha : acc.1 = -1 ∨ i < acc.1 <;> by_cases hb : acc.2 = -1 ∨ i > acc.2 <;>
    simp only [ha, hb, if_pos, if_neg, if_true, if_false] <;>
    refine ⟨fun hx => ?_, fun hy => ?_, fun hx hy => ?_⟩ <;> omega

/-- The whole fold preserves the range invariant. -/
theorem rangeFold_inv (l : List Int) : ∀ acc, rangeInv acc →
    rangeInv (l.foldl rangeStep acc) := by
  induction l with
  | nil => intro acc h; exact h
  | cons x t ih => intro acc h; exact ih _ (rangeStep_inv acc x h)

/-- Opening a writer always establishes `first ≤ index`. -/
theorem NewWithOptions_first_le_index (fs : FS) (opts : WriteOptions) (now : Int) :
    (NewWithOptions fs opts now).1.first ≤ (NewWithOptions fs opts now).1.index := by
  have h : rangeInv (rangeSegments fs) :=
    rangeFold_inv (fs.segments.map (fun p => p.1)) (-1, -1)
      (by unfold rangeInv; refine ⟨fun _ => ?_, fun _ => ?_, fun hx hy => ?_⟩ <;> omega)
  obtain ⟨h1, h2, h3⟩ := h
  unfold NewWithOptions
  dsimp only
  by_cases ha : (rangeSegments fs).1 = -1 <;> by_cases hb : (rangeSegments fs).2 = -1 <;>
    simp only [ha, hb, if_pos, if_neg, if_true, if_false] <;> omega

/-- The TTL walk advances by at most its fuel. -/
theorem ttlAdvance_le (fs : FS) (e : Int) : ∀ (fuel : Nat) (s : Int),
    ttlAdvance fs e fuel s ≤ s + (fuel : Int) := by
  intro fuel
  induction fuel with
  | zero =>
    intro s
    unfold ttlAdvance
    omega
  | succ n ih =>
    intro s
    unfold ttlAdvance
    cases hl : fsLookup fs.segments s with
    | none =>
      have hr := ih (s + 1)
      dsimp only
      omega
    | some f =>
      dsimp only
      by_cases hg : f.modTime > e
      · rw [if_pos hg]
        omega
      · rw [if_neg hg]
        have hr := ih (s + 1)
        omega

/-- With `first ≤ index` and at least one retained segment, the deletion
boundary never passes the current index. -/
theorem pruneStart_le_index (w : WALWriter) (fs : FS) (total : Int) (exp : Option Int)
    (h1 : w.first ≤ w.index) (h2 : 1 ≤ total) :
    pruneStart w fs total exp ≤ w.index := by
  unfold pruneStart
  cases exp with
  | none =>
    dsimp only
    split <;> omega
  | some e =>
    dsimp only
    have hs0 : (if w.index - total + 1 < w.first then w.first else w.index - total + 1) ≤ w.index := by
      split <;> omega
    have hadv := ttlAdvance_le fs e
      (w.index - (if w.index - total + 1 < w.first then w.first else w.index - total + 1)).toNat
      (if w.index - total + 1 < w.first then w.first else w.index - total + 1)
    omega

/-- Pruning preserves `first ≤ index` when at least one segment is
retained. -/
theorem pruneSegments_first_le (w : WALWriter) (fs : FS) (total : Int) (exp : Option Int)
    (h1 : w.first ≤ w.index) (h2 : 1 ≤ total) :
    (pruneSegments w fs total exp).1.first ≤ (pruneSegments w fs total exp).1.index := by
  have hle := pruneStart_le_index w fs total exp h1 h2
  rw [pruneSegments_fst_index]
  unfold pruneSegments
  dsimp only
  split
  · split
    · dsimp only
      exact hle
    · dsimp only
      exact hle
  · dsimp only
    exact h1

/-- A `Write` preserves `first ≤ index` and the options when
`MaxSegments ≥ 1`. -/
theorem Write_first_le_index (w : WALWriter) (fs : FS) (data : Bytes) (now : Int)
    (h1 : w.first ≤ w.index) (h2 : 1 ≤ w.opts.MaxSegments) :
    (w.Write fs data now).1.first ≤ (w.Write fs data now).1.index ∧
    (w.Write fs data now).1.opts = w.opts := by
  rw [Write_eq]
  split
  · constructor
    · exact pruneSegments_first_le (rotateSegment w fs now).1 (rotateSegment w fs now).2
        w.opts.MaxSegments (writeExpireBefore w.opts now)
        (show w.first ≤ w.index + 1 by omega) h2
    · rw [pruneSegments_fst_opts]
      rfl
  · exact ⟨h1, rfl⟩

/-- A `WriteTag` never changes `first`, `index` or the options, whatever the
injected append outcome. -/
theorem WriteTag_state (w : WALWriter) (fs : FS) (tag : Bytes) (now : Int) (ok : Bool) :
    (w.WriteTag fs tag now ok).2.1.first = w.first ∧
    (w.WriteTag fs tag now ok).2.1.index = w.index ∧
    (w.WriteTag fs tag now ok).2.1.opts = w.opts := by
  cases ok <;> exact ⟨rfl, rfl, rfl⟩

/-- Any single writer operation preserves `first ≤ index` and the options
when `MaxSegments ≥ 1`. -/
theorem runOp_inv (st : WALWriter × FS) (op : WalOp)
    (h1 : st.1.first ≤ st.1.index) (h2 : 1 ≤ st.1.opts.MaxSegments) :
    (runOp st op).1.first ≤ (runOp st op).1.index ∧
    (runOp st op).1.opts = st.1.opts := by
  cases op with
  | write data now => exact Write_first_le_index st.1 st.2 data now h1 h2
  | writeTag tag now ok =>
    obtain ⟨ha, hb, hc⟩ := WriteTag_state st.1 st.2 tag now ok
    refine ⟨?_, hc⟩
    show (st.1.WriteTag st.2 tag now ok).2.1.first ≤ (st.1.WriteTag st.2 tag now ok).2.1.index
    rw [ha, hb]
    exact h1
  | close => exact ⟨h1, rfl⟩

/-- Any sequence of writer operations preserves `first ≤ index` when
`MaxSegments ≥ 1`. -/
theorem runOps_inv (ops : List WalOp) : ∀ st : WALWriter × FS,
    st.1.first ≤ st.1.index → 1 ≤ st.1.opts.MaxSegments →
    (runOps st ops).1.first ≤ (runOps st ops).1.index := by
  induction ops with
  | nil => intro st h _; exact h
  | cons op rest ih =>
    intro st h hm
    obtain ⟨ha, hb⟩ := runOp_inv st op h hm
    exact ih (runOp st op) ha (by rw [hb]; exact hm)

/-- C10 amended: under options with `MaxSegments ≥ 1`, the invariant
`first ≤ index` holds after open and after every sequence of Write (with its
triggered rotation and pruning), WriteTag and Close operations; with
`MaxSegments = 0` a single size-triggered Write violates it. -/
theorem C10_first_le_index (fs : FS) (opts : WriteOptions) (now : Int) (ops : List WalOp)
    (h : 1 ≤ opts.MaxSegments) :
    (NewWithOptions fs opts now).1.first ≤ (NewWithOptions fs opts now).1.index ∧
    (runOps (NewWithOptions fs opts now) ops).1.first ≤
      (runOps (NewWithOptions fs opts now) ops).1.index := by
  have h0 := NewWithOptions_first_le_index fs opts now
  exact ⟨h0, runOps_inv ops (NewWithOptions fs opts now) h0 h⟩

/-- C10 witness: two over-sized writes under `MaxSegments = 3` keep
`first ≤ index`. -/
theorem C10_first_le_index_witness :
    (runOps (NewWithOptions fsEmptyW ⟨20, 3, 0, 0⟩ 0)
      [WalOp.write (List.replicate 30 97) 0, WalOp.write (List.replicate 30 98) 1]).1.first ≤
    (runOps (NewWithOptions fsEmptyW ⟨20, 3, 0, 0⟩ 0)
      [WalOp.write (List.replicate 30 97) 0, WalOp.write (List.replicate 30 98) 1]).1.index :=
  (C10_first_le_index fsEmptyW ⟨20, 3, 0, 0⟩ 0
    [WalOp.write (List.replicate 30 97) 0, WalOp.write (List.replicate 30 98) 1] (by decide)).2

end Wal
